import Mathlib

/-!
Verification of the NMF-by-gradient-descent kernel of the SMAI repository
(`src/Gradient_Descent/Matrix Factorization using Gradient Descent Excercise.ipynb`).

The notebook's numerical code is embedded shallowly over exact rationals:
matrices are `Matrix (Fin m) (Fin n) ℚ`, `np.matmul` is Mathlib matrix
multiplication, and the notebook's three functions `lossfunc`, `grads`, `sgd`
are translated line by line below.  The random initialization
`np.abs(np.random.normal(...))` is modelled by taking the initial factors
`W0`, `H0` as explicit parameters, and the unbounded `while(1)` loop is run on
explicit fuel, returning `none` when the fuel is exhausted before the break
condition fires.
-/

namespace SMAI

open Matrix BigOperators

/-- Embedding of `np.square(np.linalg.norm(A))` for a 2-d array `A`:
`np.linalg.norm` is the Frobenius norm (square root of the sum of squared
entries), so its square is exactly the sum of squared entries; the notebook
only ever uses the norm inside `np.square`, so the composite is embedded
directly as the sum of squares. -/
def sqNorm {m n : ℕ} (A : Matrix (Fin m) (Fin n) ℚ) : ℚ :=
  ∑ i, ∑ j, (A i j) ^ 2

/-- Embedding of `np.mean(A)` for a 2-d array `A`: the sum of all entries
divided by the number of entries. -/
def npMean {m n : ℕ} (A : Matrix (Fin m) (Fin n) ℚ) : ℚ :=
  (∑ i, ∑ j, A i j) / (m * n : ℚ)

/-- The notebook's `lossfunc(Mat, W, H, lamda)`:
`Mat_pred = np.matmul(W, H)`;
`loss = 0.5*np.square(np.linalg.norm(Mat-Mat_pred))
      + 0.5*lamda*(np.square(np.linalg.norm(W)) + np.square(np.linalg.norm(Mat-Mat_pred)))`. -/
def lossfunc {m n d : ℕ} (Mat : Matrix (Fin m) (Fin n) ℚ)
    (W : Matrix (Fin m) (Fin d) ℚ) (H : Matrix (Fin d) (Fin n) ℚ)
    (lamda : ℚ) : ℚ :=
  let Mat_pred := W * H
  0.5 * sqNorm (Mat - Mat_pred)
    + 0.5 * lamda * (sqNorm W + sqNorm (Mat - Mat_pred))

/-- The objective stated in the notebook's markdown and in the specification:
`F(W,H) = ½‖V − WH‖²_F + (λ/2)(‖W‖²_F + ‖H‖²_F)`.  This definition follows the
spec's words (it is the reference point the implemented `lossfunc` is compared
against); it is NOT the implemented loss. -/
def specObjective {m n d : ℕ} (Mat : Matrix (Fin m) (Fin n) ℚ)
    (W : Matrix (Fin m) (Fin d) ℚ) (H : Matrix (Fin d) (Fin n) ℚ)
    (lamda : ℚ) : ℚ :=
  0.5 * sqNorm (Mat - W * H) + 0.5 * lamda * (sqNorm W + sqNorm H)

/-- The notebook's `grads(Mat, W, H, lamda)`:
`grad_w = np.matmul((np.matmul(W,H) - Mat), H.T) + lamda*W`;
`grad_h = np.matmul(W.T, (np.matmul(W,H) - Mat)) + lamda*H`. -/
def grads {m n d : ℕ} (Mat : Matrix (Fin m) (Fin n) ℚ)
    (W : Matrix (Fin m) (Fin d) ℚ) (H : Matrix (Fin d) (Fin n) ℚ)
    (lamda : ℚ) : Matrix (Fin m) (Fin d) ℚ × Matrix (Fin d) (Fin n) ℚ :=
  (((W * H - Mat) * Hᵀ) + lamda • W, (Wᵀ * (W * H - Mat)) + lamda • H)

/-- The mutable state of the notebook's `while(1)` loop in `sgd`:
current factors `W`, `H`, the iteration counter `i`, the scalar `Error2`
(the most recently computed error estimate), and the three history lists. -/
structure SGDState (m n d : ℕ) where
  W : Matrix (Fin m) (Fin d) ℚ
  H : Matrix (Fin d) (Fin n) ℚ
  i : ℕ
  Error2 : ℚ
  loss_history : List ℚ
  w_history : List (Matrix (Fin m) (Fin d) ℚ)
  h_history : List (Matrix (Fin d) (Fin n) ℚ)

/-- The state on entry to the loop in `sgd`: `i = 0`, `Error2 = 0`, empty
history lists, and the factors at their (parametrised) random initial values. -/
def initState {m n d : ℕ} (W0 : Matrix (Fin m) (Fin d) ℚ)
    (H0 : Matrix (Fin d) (Fin n) ℚ) : SGDState m n d :=
  ⟨W0, H0, 0, 0, [], [], []⟩

/-- One pass through the body of the `while(1)` loop of `sgd`, up to (but not
including) the break test: append `W`, `H` to their histories, compute and
record the loss at the current factors, compute both gradients at the current
factors, then update `W` and `H`, increment `i`, and compute
`Error2 = np.abs(np.mean(Mat - W@H))` at the updated factors. -/
def stepState {m n d : ℕ} (Mat : Matrix (Fin m) (Fin n) ℚ)
    (eta lamda : ℚ) (s : SGDState m n d) : SGDState m n d :=
  let w_history := s.w_history ++ [s.W]
  let h_history := s.h_history ++ [s.H]
  let Loss := lossfunc Mat s.W s.H lamda
  let loss_history := s.loss_history ++ [Loss]
  let gp := grads Mat s.W s.H lamda
  let W := s.W - eta • gp.1
  let H := s.H - eta • gp.2
  let i := s.i + 1
  let Error2 := |npMean (Mat - W * H)|
  ⟨W, H, i, Error2, loss_history, w_history, h_history⟩

/-- The tuple `sgd` returns: `(W, H, loss_history, h_history, w_history, i, Error2)`. -/
structure SGDResult (m n d : ℕ) where
  W : Matrix (Fin m) (Fin d) ℚ
  H : Matrix (Fin d) (Fin n) ℚ
  loss_history : List ℚ
  h_history : List (Matrix (Fin d) (Fin n) ℚ)
  w_history : List (Matrix (Fin m) (Fin d) ℚ)
  i : ℕ
  Error2 : ℚ

/-- The `while(1)` loop of `sgd`, run on explicit fuel: execute the loop body,
then break (returning the result tuple) exactly when
`np.abs(Error1 - Error2) < epsilon`, where `Error1` is the previous iteration's
error estimate (`0` before the first iteration) and `Error2` the fresh one.
`none` means the fuel ran out before the break condition ever fired — the
source loop has no iteration cap, so `none` for every fuel value is
non-termination of the source. -/
def sgdGo {m n d : ℕ} (Mat : Matrix (Fin m) (Fin n) ℚ)
    (eta lamda epsilon : ℚ) :
    ℕ → SGDState m n d → Option (SGDResult m n d)
  | 0, _ => none
  | fuel + 1, s =>
    let s' := stepState Mat eta lamda s
    if |s.Error2 - s'.Error2| < epsilon then
      some ⟨s'.W, s'.H, s'.loss_history, s'.h_history, s'.w_history, s'.i, s'.Error2⟩
    else
      sgdGo Mat eta lamda epsilon fuel s'

/-- The notebook's `sgd(Mat, num_topics, eta, lamda, epsilon)` with the random
initialization made explicit (`W0`, `H0`) and the unbounded loop run on fuel. -/
def sgd {m n : ℕ} (Mat : Matrix (Fin m) (Fin n) ℚ) (num_topics : ℕ)
    (W0 : Matrix (Fin m) (Fin num_topics) ℚ)
    (H0 : Matrix (Fin num_topics) (Fin n) ℚ)
    (eta lamda epsilon : ℚ) (fuel : ℕ) : Option (SGDResult m n num_topics) :=
  sgdGo Mat eta lamda epsilon fuel (initState W0 H0)

/-- The 1×1 rational matrix with the given entry (used for concrete runs). -/
def constM (a : ℚ) : Matrix (Fin 1) (Fin 1) ℚ := Matrix.of fun _ _ => a

/-! ### Shape-level semantics

numpy array shapes are dynamic, so the shape discipline of the loop is a fact
to prove, not a typing artifact.  The following mirror the shape behaviour of
the numpy operations the loop body uses. -/

/-- The shape of a numpy 2-d array: (rows, columns). -/
abbrev Shape := ℕ × ℕ

/-- Shape of `np.matmul(A, B)` on 2-d arrays: defined when the inner
dimensions agree, otherwise numpy raises (modelled as `none`). -/
def matmulShape (a b : Shape) : Option Shape :=
  if a.2 = b.1 then some (a.1, b.2) else none

/-- Shape of an elementwise binary operation (`+`, `-`) as the loop body uses
it, i.e. on operands of identical shape.  (numpy broadcasting of unequal
shapes is never exercised by this code, so the strict same-shape rule used
here is the rule the code actually runs under.) -/
def elemwiseShape (a b : Shape) : Option Shape :=
  if a = b then some a else none

/-- Shape of `A.T`. -/
def transposeShape (a : Shape) : Shape := (a.2, a.1)

/-- Shape checking of `grads(Mat, W, H, lamda)`: scalar multiplication by
`lamda` preserves shape, so only the matrix products and the elementwise
sums/differences constrain the shapes. -/
def gradsShape (v w h : Shape) : Option (Shape × Shape) := do
  let wh ← matmulShape w h
  let r ← elemwiseShape wh v
  let gw1 ← matmulShape r (transposeShape h)
  let gw ← elemwiseShape gw1 w
  let gh1 ← matmulShape (transposeShape w) r
  let gh ← elemwiseShape gh1 h
  return (gw, gh)

/-- Shape checking of one pass through the loop body of `sgd`: the
`Mat - Mat_pred` inside `lossfunc`, both gradients, the two factor updates,
and the residual `Mat - W@H` of the error estimate; yields the shapes of the
updated factors. -/
def stepShape (v w h : Shape) : Option (Shape × Shape) := do
  let wh ← matmulShape w h
  let _ ← elemwiseShape v wh
  let gp ← gradsShape v w h
  let w' ← elemwiseShape w gp.1
  let h' ← elemwiseShape h gp.2
  let wh' ← matmulShape w' h'
  let _ ← elemwiseShape v wh'
  return (w', h')

/-- Iterated shape checking of the loop: `k` passes through the body. -/
def iterShape (v : Shape) : ℕ → Shape × Shape → Option (Shape × Shape)
  | 0, p => some p
  | k + 1, p => do
    let p' ← stepShape v p.1 p.2
    iterShape v k p'

/-! ### A divergent configuration

With `Mat = [[0]]` (1×1), one topic, `eta = 1`, `lamda = 0` and both factors
initialized to `[[2]]`, the two factors stay equal to the same constant, so
the whole run is the scalar recurrence `x ← x − x³` started at `2`. -/

/-- The scalar trace of the divergent configuration: `xseq 0 = 2` and
`xseq (k+1) = xseq k − (xseq k)³`. -/
def xseq : ℕ → ℚ
  | 0 => 2
  | k + 1 => xseq k - (xseq k) ^ 3

/-- The error estimate held in `Error2` after `k` iterations of the divergent
configuration: `0` before the first iteration, `(xseq k)²` afterwards. -/
def Ek (k : ℕ) : ℚ := if k = 0 then 0 else (xseq k) ^ 2

/-! ### Allocation-level semantics

The loop body uses only `np.matmul`, elementwise `-`/`+`, scalar
multiplication, `np.mean` and `np.abs` — every one of these returns a freshly
allocated array (or a scalar) and writes to no existing array; no in-place
operation (`+=`, slice assignment, `out=`) appears anywhere in `sgd`.  The
model therefore has a single primitive, `alloc`, that produces an array with
the next free object identity; there is no primitive that writes to an
existing array, which is exactly the repertoire of the source code.
`A.T` returns a view sharing the operand's buffer, allocating nothing. -/

/-- A numpy 2-d array together with its object identity. -/
structure NArr (m n : ℕ) where
  id : ℕ
  val : Matrix (Fin m) (Fin n) ℚ

/-- Allocate a fresh array: the result carries the next free identity and the
counter advances past it. -/
def alloc {m n : ℕ} (c : ℕ) (v : Matrix (Fin m) (Fin n) ℚ) : NArr m n × ℕ :=
  (⟨c, v⟩, c + 1)

/-- The loop state of `sgd` at allocation level: the caller's array `Mat`
(named `V`), the current factor arrays, the error estimate, the iteration
counter and the allocation counter (`cnt` is larger than every identity
allocated so far).  The history lists only store references to factor arrays
already accounted for, so they are elided here. -/
structure AllocState (m n d : ℕ) where
  V : NArr m n
  W : NArr m d
  H : NArr d n
  Error2 : ℚ
  i : ℕ
  cnt : ℕ

/-- One pass through the loop body of `sgd` at allocation level, allocating a
fresh array for every array-valued intermediate in source order: the
`Mat_pred` and the two `Mat - Mat_pred` of `lossfunc`; the five arrays of
`grad_w` and the five of `grad_h` (`H.T` and `W.T` are views); the scaled
gradients and the two updated factors; the `W@H` and residual of the error
estimate (`np.mean` and `np.abs` yield scalars). -/
def stepAlloc {m n d : ℕ} (eta lamda : ℚ) (s : AllocState m n d) :
    AllocState m n d :=
  let (matPred, a1) := alloc s.cnt (s.W.val * s.H.val)
  let (_r1, a2) := alloc a1 (s.V.val - matPred.val)
  let (_r2, a3) := alloc a2 (s.V.val - matPred.val)
  let (wh1, a4) := alloc a3 (s.W.val * s.H.val)
  let (d1, a5) := alloc a4 (wh1.val - s.V.val)
  let (p1, a6) := alloc a5 (d1.val * s.H.valᵀ)
  let (rw, a7) := alloc a6 (lamda • s.W.val)
  let (gw, a8) := alloc a7 (p1.val + rw.val)
  let (wh2, a9) := alloc a8 (s.W.val * s.H.val)
  let (d2, a10) := alloc a9 (wh2.val - s.V.val)
  let (p2, a11) := alloc a10 (s.W.valᵀ * d2.val)
  let (rh, a12) := alloc a11 (lamda • s.H.val)
  let (gh, a13) := alloc a12 (p2.val + rh.val)
  let (sgw, a14) := alloc a13 (eta • gw.val)
  let (W2, a15) := alloc a14 (s.W.val - sgw.val)
  let (sgh, a16) := alloc a15 (eta • gh.val)
  let (H2, a17) := alloc a16 (s.H.val - sgh.val)
  let (wh3, a18) := alloc a17 (W2.val * H2.val)
  let (res, a19) := alloc a18 (s.V.val - wh3.val)
  ⟨s.V, W2, H2, |npMean res.val|, s.i + 1, a19⟩

/-- The `while(1)` loop of `sgd` at allocation level, on explicit fuel,
with the same break condition as `sgdGo`. -/
def sgdAllocGo {m n d : ℕ} (eta lamda epsilon : ℚ) :
    ℕ → AllocState m n d → Option (AllocState m n d)
  | 0, _ => none
  | fuel + 1, s =>
    let s' := stepAlloc eta lamda s
    if |s.Error2 - s'.Error2| < epsilon then some s'
    else sgdAllocGo eta lamda epsilon fuel s'

/-- The divergent configuration's state after one iteration:
`Mat = [[0]]`, `eta = 1`, `lamda = 0`, both factors initialized to `[[2]]`. -/
def divState1 : SGDState 1 1 1 :=
  stepState (constM 0) 1 0 (initState (constM 2) (constM 2))

/-- The invariant of the divergent configuration after `k` iterations: both
factors are the constant `xseq k` and the stored error estimate is `Ek k`. -/
def constInv (k : ℕ) (s : SGDState 1 1 1) : Prop :=
  s.W = constM (xseq k) ∧ s.H = constM (xseq k) ∧ s.Error2 = Ek k

/-- A concrete starting state for the allocation-level run: the caller's `V`
has identity `0`, the initial factors identities `1` and `2`, and the next
free identity is `3`. -/
def allocStart : AllocState 1 1 1 :=
  ⟨⟨0, constM 0⟩, ⟨1, constM 0⟩, ⟨2, constM 0⟩, 0, 0, 3⟩

end SMAI

namespace SMAI

open Matrix BigOperators

lemma divState1_W : divState1.W = constM (-6) := by
  ext i j
  simp [divState1, stepState, initState, grads, constM, Matrix.mul_apply,
    Matrix.sub_apply, Matrix.smul_apply, Matrix.add_apply, Matrix.transpose_apply,
    Fin.sum_univ_one]
  norm_num

lemma divState1_H : divState1.H = constM (-6) := by
  ext i j
  simp [divState1, stepState, initState, grads, constM, Matrix.mul_apply,
    Matrix.sub_apply, Matrix.smul_apply, Matrix.add_apply, Matrix.transpose_apply,
    Fin.sum_univ_one]
  norm_num

lemma divState1_Error2 : divState1.Error2 = 36 := by
  simp [divState1, stepState, initState, grads, npMean, constM, Matrix.mul_apply,
    Matrix.sub_apply, Matrix.smul_apply, Matrix.add_apply, Matrix.transpose_apply,
    Fin.sum_univ_one]
  norm_num

lemma divState1_signed_mean :
    npMean (constM 0 - divState1.W * divState1.H) = -36 := by
  rw [divState1_W, divState1_H]
  simp [npMean, constM, Matrix.mul_apply, Matrix.sub_apply, Fin.sum_univ_one]
  norm_num

lemma divState1_loss_history : divState1.loss_history = [8] := by
  simp [divState1, stepState, initState, lossfunc, sqNorm, constM,
    Matrix.mul_apply, Matrix.sub_apply, Fin.sum_univ_one]
  norm_num

lemma divState1_post_loss :
    lossfunc (constM 0) divState1.W divState1.H 0 = 648 := by
  rw [divState1_W, divState1_H]
  simp [lossfunc, sqNorm, constM, Matrix.mul_apply, Matrix.sub_apply,
    Fin.sum_univ_one]
  norm_num

/-- C1 counterexample: in the run with `Mat = [[0]]`, `eta = 1`, `lamda = 0`,
`W0 = H0 = [[2]]`, the error estimate stored after the first iteration is
`36`, while the signed mean of the residual `V − WH` at the updated factors is
`−36` — the loop's scalar error estimate is not the signed mean of the
residual. -/
theorem error_estimate_signed_mean_cex :
    divState1.Error2 = 36
    ∧ npMean (constM 0 - divState1.W * divState1.H) = -36
    ∧ divState1.Error2 ≠ npMean (constM 0 - divState1.W * divState1.H) := by
  refine ⟨divState1_Error2, divState1_signed_mean, ?_⟩
  rw [divState1_Error2, divState1_signed_mean]
  norm_num

/-- C1 (amended): the scalar error estimate computed after each iteration's
update is the absolute value of the (signed) mean of the residual `V − WH` at
the updated factors; positive and negative residual entries can still cancel
inside the mean, e.g. a residual with entries `1` and `−1` yields error
estimate `0`. -/
theorem error_estimate_abs_mean_with_cancellation :
    (∀ (m n d : ℕ) (Mat : Matrix (Fin m) (Fin n) ℚ) (eta lamda : ℚ)
        (s : SGDState m n d),
      (stepState Mat eta lamda s).Error2
        = |npMean (Mat
            - (stepState Mat eta lamda s).W * (stepState Mat eta lamda s).H)|)
    ∧ (∃ (V : Matrix (Fin 1) (Fin 2) ℚ) (W : Matrix (Fin 1) (Fin 1) ℚ)
          (H : Matrix (Fin 1) (Fin 2) ℚ),
        0 < (V - W * H) 0 0 ∧ (V - W * H) 0 1 < 0
        ∧ |npMean (V - W * H)| = 0) := by
  constructor
  · intro m n d Mat eta lamda s
    rfl
  · refine ⟨Matrix.of fun _ j => if j = 0 then 1 else -1,
      Matrix.of fun _ _ => 0, Matrix.of fun _ _ => 0, ?_, ?_, ?_⟩
    · simp [Matrix.mul_apply, Matrix.sub_apply, Fin.sum_univ_one]
    · simp [Matrix.mul_apply, Matrix.sub_apply, Fin.sum_univ_one]
    · simp [npMean, Matrix.mul_apply, Matrix.sub_apply, Fin.sum_univ_one,
        Fin.sum_univ_two]

/-- C2: evaluation at a failing input.  At `Mat = [[1]]`, `W = [[1]]`,
`H = [[0]]`, `λ = 1`, the implemented `lossfunc` returns `3/2`, while the
objective `F(W,H) = ½‖V−WH‖² + (λ/2)(‖W‖² + ‖H‖²)` documented in the
notebook's own markdown (whose gradients `grads` implements) is `1` — the
recorded loss does not equal the stated objective. -/
theorem lossfunc_contradicts_documented_objective :
    lossfunc (constM 1) (constM 1) (constM 0) 1 = 3 / 2
    ∧ specObjective (constM 1) (constM 1) (constM 0) 1 = 1
    ∧ lossfunc (constM 1) (constM 1) (constM 0) 1
        ≠ specObjective (constM 1) (constM 1) (constM 0) 1 := by
  refine ⟨?_, ?_, ?_⟩
  · simp [lossfunc, sqNorm, constM, Matrix.mul_apply, Matrix.sub_apply,
      Fin.sum_univ_one]
    norm_num
  · simp [specObjective, sqNorm, constM, Matrix.mul_apply, Matrix.sub_apply,
      Fin.sum_univ_one]
    norm_num
  · have h1 : lossfunc (constM 1) (constM 1) (constM 0) 1 = 3 / 2 := by
      simp [lossfunc, sqNorm, constM, Matrix.mul_apply, Matrix.sub_apply,
        Fin.sum_univ_one]
      norm_num
    have h2 : specObjective (constM 1) (constM 1) (constM 0) 1 = 1 := by
      simp [specObjective, sqNorm, constM, Matrix.mul_apply, Matrix.sub_apply,
        Fin.sum_univ_one]
      norm_num
    rw [h1, h2]
    norm_num

/-- C3: the implemented loss doubly counts the reconstruction residual: for
every `V`, `W`, `H`, `λ`, `lossfunc V W H λ` equals
`½‖V−WH‖² + (λ/2)(‖W‖² + ‖V−WH‖²)` — the `λ` term reuses `‖V−WH‖²` in place
of `‖H‖²` — so it differs from the documented objective by exactly
`(λ/2)(‖V−WH‖² − ‖H‖²)`, making the computed objective inconsistent with the
objective whose gradients `grads` implements. -/
theorem lossfunc_reuses_residual_for_lambda_term
    {m n d : ℕ} (Mat : Matrix (Fin m) (Fin n) ℚ)
    (W : Matrix (Fin m) (Fin d) ℚ) (H : Matrix (Fin d) (Fin n) ℚ)
    (lamda : ℚ) :
    lossfunc Mat W H lamda
      = 0.5 * sqNorm (Mat - W * H)
        + 0.5 * lamda * (sqNorm W + sqNorm (Mat - W * H))
    ∧ lossfunc Mat W H lamda - specObjective Mat W H lamda
      = 0.5 * lamda * (sqNorm (Mat - W * H) - sqNorm H) := by
  refine ⟨rfl, ?_⟩
  simp only [lossfunc, specObjective]
  ring

/-- C4: each iteration updates both factors with full-batch gradients taken
at the pre-update values: the new `W` is
`W − η·((WH − V)Hᵗ + λW)` and the new `H` is `H − η·(Wᵗ(WH − V) + λH)`, where
every occurrence of `W` and `H` on the right-hand sides is the value from
before either update of that iteration. -/
theorem update_simultaneous_full_batch
    {m n d : ℕ} (Mat : Matrix (Fin m) (Fin n) ℚ) (eta lamda : ℚ)
    (s : SGDState m n d) :
    (stepState Mat eta lamda s).W
      = s.W - eta • ((s.W * s.H - Mat) * (s.H)ᵀ + lamda • s.W)
    ∧ (stepState Mat eta lamda s).H
      = s.H - eta • ((s.W)ᵀ * (s.W * s.H - Mat) + lamda • s.H) :=
  ⟨rfl, rfl⟩

/-- C6 counterexample: in the run with `Mat = [[0]]`, `eta = 1`, `lamda = 0`,
`W0 = H0 = [[2]]`, the loss recorded during the first iteration is `8`
(the loss at the factors entering the iteration), while the loss at the
factors produced by that iteration's update is `648` — the recorded loss is
not the post-update value. -/
theorem loss_history_post_update_cex :
    divState1.loss_history = [8]
    ∧ lossfunc (constM 0) divState1.W divState1.H 0 = 648
    ∧ divState1.loss_history
        ≠ [lossfunc (constM 0) divState1.W divState1.H 0] := by
  refine ⟨divState1_loss_history, divState1_post_loss, ?_⟩
  rw [divState1_loss_history, divState1_post_loss]
  norm_num

/-- C6 (amended): the loss recorded into the loss history at each iteration
is the pre-update value: the loss evaluated at the `W` and `H` with which the
iteration was entered, appended before the factors are updated. -/
theorem loss_history_records_pre_update
    {m n d : ℕ} (Mat : Matrix (Fin m) (Fin n) ℚ) (eta lamda : ℚ)
    (s : SGDState m n d) :
    (stepState Mat eta lamda s).loss_history
      = s.loss_history ++ [lossfunc Mat s.W s.H lamda] := rfl

/-- C7: the update rule does not preserve nonnegativity: there are a
nonnegative `V`, nonnegative initial factors, a positive step size and a
nonnegative regularization weight for which a single gradient-descent update
produces a factor entry that is strictly negative (the step applies no
projection or clamping). -/
theorem update_can_break_nonnegativity :
    ∃ (V W0 H0 : Matrix (Fin 1) (Fin 1) ℚ) (eta lamda : ℚ),
      (∀ i j, 0 ≤ V i j) ∧ (∀ i j, 0 ≤ W0 i j) ∧ (∀ i j, 0 ≤ H0 i j)
      ∧ 0 < eta ∧ 0 ≤ lamda
      ∧ (stepState V eta lamda (initState W0 H0)).W 0 0 < 0 := by
  refine ⟨constM 0, constM 2, constM 2, 1, 0, ?_, ?_, ?_, one_pos, le_refl 0, ?_⟩
  · intro i j; simp [constM]
  · intro i j; simp [constM]
  · intro i j; simp [constM]
  · have h : divState1.W 0 0 = -6 := by rw [divState1_W]; simp [constM]
    show divState1.W 0 0 < 0
    rw [h]
    norm_num

/-- C8: shape preservation.  For an input of shape `(m,n)` and rank `d`, the
shape semantics of every numpy operation in the loop body succeeds after any
number `k` of iterations, and the factors have shapes `(m,d)` and `(d,n)`
throughout — in particular the returned `W` and `H` (the factors after the
last iteration) have shapes `(m,d)` and `(d,n)`. -/
theorem shapes_invariant_all_iterations (m n d k : ℕ) :
    iterShape (m, n) k ((m, d), (d, n)) = some ((m, d), (d, n)) := by
  induction k with
  | zero => rfl
  | succ k ih =>
    have hstep : stepShape (m, n) (m, d) (d, n) = some ((m, d), (d, n)) := by
      simp [stepShape, gradsShape, matmulShape, elemwiseShape, transposeShape]
    simp [iterShape, hstep, ih]

lemma sgdGo_i_lower_bound {m n d : ℕ} (Mat : Matrix (Fin m) (Fin n) ℚ)
    (eta lamda epsilon : ℚ) :
    ∀ (fuel : ℕ) (s : SGDState m n d) (r : SGDResult m n d),
      sgdGo Mat eta lamda epsilon fuel s = some r → s.i + 1 ≤ r.i := by
  intro fuel
  induction fuel with
  | zero => intro s r h; simp [sgdGo] at h
  | succ fuel ih =>
    intro s r h
    simp only [sgdGo] at h
    split at h
    · cases h
      simp [stepState]
    · have := ih (stepState Mat eta lamda s) r h
      simp only [stepState] at this
      omega

/-- C10: the loop always runs at least one full iteration (every returned
result has `i ≥ 1`); the previous error estimate starts at `0`, so whenever
the absolute mean residual after the first update is already below `ε` the
routine returns after exactly one iteration — termination without comparing
two computed error estimates. -/
theorem at_least_one_iteration_and_first_step_exit
    {m n d : ℕ} (Mat : Matrix (Fin m) (Fin n) ℚ) (eta lamda epsilon : ℚ)
    (W0 : Matrix (Fin m) (Fin d) ℚ) (H0 : Matrix (Fin d) (Fin n) ℚ) :
    (initState W0 H0).Error2 = 0
    ∧ (∀ (fuel : ℕ) (r : SGDResult m n d),
        sgd Mat d W0 H0 eta lamda epsilon fuel = some r → 1 ≤ r.i)
    ∧ (∀ fuel : ℕ, 1 ≤ fuel →
        |npMean (Mat - (stepState Mat eta lamda (initState W0 H0)).W
            * (stepState Mat eta lamda (initState W0 H0)).H)| < epsilon →
        ∃ r : SGDResult m n d,
          sgd Mat d W0 H0 eta lamda epsilon fuel = some r ∧ r.i = 1) := by
  refine ⟨rfl, ?_, ?_⟩
  · intro fuel r h
    have := sgdGo_i_lower_bound Mat eta lamda epsilon fuel (initState W0 H0) r h
    simp only [initState] at this
    omega
  · intro fuel hf hcond
    obtain ⟨f, rfl⟩ : ∃ f, fuel = f + 1 := ⟨fuel - 1, by omega⟩
    have hcond' :
        |(initState W0 H0).Error2
          - (stepState Mat eta lamda (initState W0 H0)).Error2| < epsilon := by
      have hE : (initState W0 H0).Error2 = 0 := rfl
      have hE2 : (stepState Mat eta lamda (initState W0 H0)).Error2
          = |npMean (Mat - (stepState Mat eta lamda (initState W0 H0)).W
              * (stepState Mat eta lamda (initState W0 H0)).H)| := rfl
      rw [hE, zero_sub, abs_neg, hE2, abs_abs]
      exact hcond
    refine ⟨⟨(stepState Mat eta lamda (initState W0 H0)).W,
        (stepState Mat eta lamda (initState W0 H0)).H,
        (stepState Mat eta lamda (initState W0 H0)).loss_history,
        (stepState Mat eta lamda (initState W0 H0)).h_history,
        (stepState Mat eta lamda (initState W0 H0)).w_history,
        (stepState Mat eta lamda (initState W0 H0)).i,
        (stepState Mat eta lamda (initState W0 H0)).Error2⟩, ?_, ?_⟩
    · show sgdGo Mat eta lamda epsilon (f + 1) (initState W0 H0) = _
      simp only [sgdGo]
      rw [if_pos hcond']
    · show (stepState Mat eta lamda (initState W0 H0)).i = 1
      rfl

/-- C10 witness: with `Mat = [[0]]`, both factors initialized to `[[0]]`,
`eta = 1`, `lamda = 0`, `ε = 1/100000` and fuel `1`, the loop returns after
exactly one iteration. -/
theorem at_least_one_iteration_and_first_step_exit_witness :
    ∃ r : SGDResult 1 1 1,
      sgd (constM 0) 1 (constM 0) (constM 0) 1 0 (1/100000) 1 = some r
        ∧ r.i = 1 :=
  (at_least_one_iteration_and_first_step_exit (constM 0) 1 0 (1/100000)
      (constM 0) (constM 0)).2.2 1 (le_refl 1) (by
    simp [stepState, initState, grads, npMean, constM, Matrix.mul_apply,
      Matrix.sub_apply, Matrix.smul_apply, Matrix.add_apply,
      Matrix.transpose_apply, Fin.sum_univ_one])

lemma xseq_abs_ge_two : ∀ k, 2 ≤ |xseq k| := by
  intro k
  induction k with
  | zero => norm_num [xseq]
  | succ k ih =>
    have hx : xseq (k + 1) = xseq k * (1 - xseq k ^ 2) := by
      rw [xseq]; ring
    have h4 : 4 ≤ xseq k ^ 2 := by nlinarith [sq_abs (xseq k)]
    have h3 : 3 ≤ |1 - xseq k ^ 2| := by
      rw [abs_of_nonpos (by nlinarith)]
      nlinarith
    have h6 : 2 * 3 ≤ |xseq k| * |1 - xseq k ^ 2| :=
      mul_le_mul ih h3 (by norm_num) (abs_nonneg _)
    rw [hx, abs_mul]
    linarith

lemma Ek_delta_large : ∀ k, (1 : ℚ) / 100000 ≤ |Ek k - Ek (k + 1)| := by
  intro k
  cases k with
  | zero =>
    have h1 : xseq 1 = -6 := by norm_num [xseq]
    simp [Ek, h1]
    norm_num
  | succ k =>
    have h2 : 2 ≤ |xseq (k + 1)| := xseq_abs_ge_two (k + 1)
    have h4 : 4 ≤ xseq (k + 1) ^ 2 := by nlinarith [sq_abs (xseq (k + 1))]
    have hx : xseq (k + 2) = xseq (k + 1) * (1 - xseq (k + 1) ^ 2) := by
      rw [xseq]; ring
    have hEk1 : Ek (k + 1) = xseq (k + 1) ^ 2 := by simp [Ek]
    have hEk2 : Ek (k + 2) = (xseq (k + 1) * (1 - xseq (k + 1) ^ 2)) ^ 2 := by
      rw [Ek, hx]; simp
    have key : 32 ≤ Ek (k + 2) - Ek (k + 1) := by
      rw [hEk1, hEk2]
      nlinarith [h4, sq_nonneg (xseq (k + 1) ^ 2 - 4), sq_nonneg (xseq (k + 1))]
    rw [abs_sub_comm, abs_of_nonneg (by linarith)]
    linarith

lemma stepState_const (a : ℚ) (s : SGDState 1 1 1)
    (hW : s.W = constM a) (hH : s.H = constM a) :
    (stepState (constM 0) 1 0 s).W = constM (a - a ^ 3)
    ∧ (stepState (constM 0) 1 0 s).H = constM (a - a ^ 3)
    ∧ (stepState (constM 0) 1 0 s).Error2 = (a - a ^ 3) ^ 2 := by
  have h1 : (stepState (constM 0) 1 0 s).W = constM (a - a ^ 3) := by
    ext i j
    simp [stepState, grads, hW, hH, constM, Matrix.mul_apply, Matrix.sub_apply,
      Matrix.smul_apply, Matrix.add_apply, Matrix.transpose_apply,
      Fin.sum_univ_one]
    ring
  have h2 : (stepState (constM 0) 1 0 s).H = constM (a - a ^ 3) := by
    ext i j
    simp [stepState, grads, hW, hH, constM, Matrix.mul_apply, Matrix.sub_apply,
      Matrix.smul_apply, Matrix.add_apply, Matrix.transpose_apply,
      Fin.sum_univ_one]
    ring
  refine ⟨h1, h2, ?_⟩
  have hrfl : (stepState (constM 0) 1 0 s).Error2
      = |npMean (constM 0
          - (stepState (constM 0) 1 0 s).W * (stepState (constM 0) 1 0 s).H)| :=
    rfl
  rw [hrfl, h1, h2]
  have hm : npMean (constM 0 - constM (a - a ^ 3) * constM (a - a ^ 3))
      = -((a - a ^ 3) ^ 2) := by
    simp [npMean, constM, Matrix.mul_apply, Matrix.sub_apply, Fin.sum_univ_one]
    ring
  rw [hm, abs_neg, abs_of_nonneg (sq_nonneg _)]

lemma constInv_step {k : ℕ} {s : SGDState 1 1 1} (hs : constInv k s) :
    constInv (k + 1) (stepState (constM 0) 1 0 s) := by
  obtain ⟨hW, hH, _⟩ := hs
  obtain ⟨h1, h2, h3⟩ := stepState_const (xseq k) s hW hH
  have hx : xseq (k + 1) = xseq k - xseq k ^ 3 := by rw [xseq]
  refine ⟨?_, ?_, ?_⟩
  · rw [h1, hx]
  · rw [h2, hx]
  · rw [h3, Ek, if_neg (Nat.succ_ne_zero k), hx]

lemma constInv_iterate :
    ∀ k, constInv k
      ((stepState (constM 0) 1 0)^[k] (initState (constM 2) (constM 2))) := by
  intro k
  induction k with
  | zero => exact ⟨rfl, rfl, rfl⟩
  | succ k ih =>
    rw [Function.iterate_succ_apply']
    exact constInv_step ih

lemma sgdGo_diverges :
    ∀ fuel k : ℕ,
      sgdGo (constM 0) 1 0 (1 / 100000) fuel
        ((stepState (constM 0) 1 0)^[k] (initState (constM 2) (constM 2)))
        = none := by
  intro fuel
  induction fuel with
  | zero => intro k; rfl
  | succ fuel ih =>
    intro k
    have hs := constInv_iterate k
    have hs' := constInv_iterate (k + 1)
    have hstep :
        stepState (constM 0) 1 0
            ((stepState (constM 0) 1 0)^[k] (initState (constM 2) (constM 2)))
          = (stepState (constM 0) 1 0)^[k + 1]
              (initState (constM 2) (constM 2)) :=
      (Function.iterate_succ_apply' _ _ _).symm
    simp only [sgdGo, hstep]
    rw [if_neg, ih (k + 1)]
    rw [hs.2.2, hs'.2.2]
    exact not_lt.mpr (Ek_delta_large k)

lemma sgdGo_isSome_iff {m n d : ℕ} (Mat : Matrix (Fin m) (Fin n) ℚ)
    (eta lamda epsilon : ℚ) :
    ∀ (fuel : ℕ) (s : SGDState m n d),
      (sgdGo Mat eta lamda epsilon fuel s).isSome = true
        ↔ ∃ k, k < fuel ∧
            |((stepState Mat eta lamda)^[k] s).Error2
              - ((stepState Mat eta lamda)^[k + 1] s).Error2| < epsilon := by
  intro fuel
  induction fuel with
  | zero => intro s; simp [sgdGo]
  | succ fuel ih =>
    intro s
    simp only [sgdGo]
    by_cases hc : |s.Error2 - (stepState Mat eta lamda s).Error2| < epsilon
    · rw [if_pos hc]
      simp only [Option.isSome_some, true_iff]
      exact ⟨0, Nat.succ_pos fuel, by simpa using hc⟩
    · rw [if_neg hc, ih (stepState Mat eta lamda s)]
      constructor
      · rintro ⟨k, hk, hlt⟩
        refine ⟨k + 1, by omega, ?_⟩
        rw [Function.iterate_succ_apply, Function.iterate_succ_apply]
        exact hlt
      · rintro ⟨k, hk, hlt⟩
        cases k with
        | zero => exact absurd (by simpa using hlt) hc
        | succ k =>
          refine ⟨k, by omega, ?_⟩
          rw [Function.iterate_succ_apply, Function.iterate_succ_apply] at hlt
          exact hlt

/-- C5: the loop returns a result exactly when at some iteration the absolute
difference of two consecutive error estimates falls below `ε` (the fuel bound
is an artifact of the embedding, not of the source, which has no iteration
cap); and there is a configuration — `Mat = [[0]]`, one topic, `eta = 1`,
`lamda = 0`, both factors initialized to `[[2]]`, `ε = 1/100000` — whose
successive error-estimate deltas never fall below `ε`, so the loop never
terminates: it returns no result for any amount of fuel. -/
theorem loop_break_iff_delta_small_and_no_cap :
    (∀ (m n d : ℕ) (Mat : Matrix (Fin m) (Fin n) ℚ) (eta lamda epsilon : ℚ)
        (fuel : ℕ) (s : SGDState m n d),
      (sgdGo Mat eta lamda epsilon fuel s).isSome = true
        ↔ ∃ k, k < fuel ∧
            |((stepState Mat eta lamda)^[k] s).Error2
              - ((stepState Mat eta lamda)^[k + 1] s).Error2| < epsilon)
    ∧ (∀ fuel : ℕ,
        sgd (constM 0) 1 (constM 2) (constM 2) 1 0 (1 / 100000) fuel = none) := by
  constructor
  · intro m n d Mat eta lamda epsilon fuel s
    exact sgdGo_isSome_iff Mat eta lamda epsilon fuel s
  · intro fuel
    have h := sgdGo_diverges fuel 0
    simpa [sgd] using h

lemma stepAlloc_V {m n d : ℕ} (eta lamda : ℚ) (s : AllocState m n d) :
    (stepAlloc eta lamda s).V = s.V := rfl

lemma stepAlloc_cnt {m n d : ℕ} (eta lamda : ℚ) (s : AllocState m n d) :
    (stepAlloc eta lamda s).cnt = s.cnt + 19 := rfl

lemma stepAlloc_W_id {m n d : ℕ} (eta lamda : ℚ) (s : AllocState m n d) :
    (stepAlloc eta lamda s).W.id = s.cnt + 14 := rfl

lemma stepAlloc_H_id {m n d : ℕ} (eta lamda : ℚ) (s : AllocState m n d) :
    (stepAlloc eta lamda s).H.id = s.cnt + 16 := rfl

lemma sgdAllocGo_frame {m n d : ℕ} (eta lamda epsilon : ℚ) :
    ∀ (fuel : ℕ) (s r : AllocState m n d),
      sgdAllocGo eta lamda epsilon fuel s = some r →
      r.V = s.V ∧ s.cnt ≤ r.W.id ∧ s.cnt ≤ r.H.id := by
  intro fuel
  induction fuel with
  | zero => intro s r h; simp [sgdAllocGo] at h
  | succ fuel ih =>
    intro s r h
    simp only [sgdAllocGo] at h
    split at h
    · cases h
      exact ⟨stepAlloc_V eta lamda s,
        by rw [stepAlloc_W_id]; omega,
        by rw [stepAlloc_H_id]; omega⟩
    · obtain ⟨h1, h2, h3⟩ := ih (stepAlloc eta lamda s) r h
      rw [stepAlloc_V] at h1
      rw [stepAlloc_cnt] at h2 h3
      exact ⟨h1, by omega, by omega⟩

/-- C9: the factorization routine never writes to the caller's matrix `V` —
the allocation-level model has no primitive that writes to an existing array,
matching the source, which uses only allocating numpy operations — so for
every run that returns, the array `V` (identity and entries) is the same
after the call as before it, and the returned `W` and `H` are arrays freshly
allocated during the run, with identities distinct from `V`'s. -/
theorem no_mutation_and_fresh_outputs
    {m n d : ℕ} (eta lamda epsilon : ℚ) (s0 : AllocState m n d)
    (hV : s0.V.id < s0.cnt) (fuel : ℕ) (r : AllocState m n d)
    (hr : sgdAllocGo eta lamda epsilon fuel s0 = some r) :
    r.V = s0.V ∧ r.W.id ≠ s0.V.id ∧ r.H.id ≠ s0.V.id := by
  obtain ⟨h1, h2, h3⟩ := sgdAllocGo_frame eta lamda epsilon fuel s0 r hr
  exact ⟨h1, by omega, by omega⟩

/-- C9 witness: a concrete converging run (`V = [[0]]` with identity `0`,
zero-initialized factors, `eta = 1`, `lamda = 0`, `ε = 1/100000`, fuel `1`)
returns with `V` untouched and freshly allocated `W`, `H`. -/
theorem no_mutation_and_fresh_outputs_witness :
    ∃ r : AllocState 1 1 1,
      sgdAllocGo (1 : ℚ) 0 (1 / 100000) 1 allocStart = some r
        ∧ r.V = allocStart.V ∧ r.W.id ≠ allocStart.V.id
        ∧ r.H.id ≠ allocStart.V.id := by
  have hr : sgdAllocGo (1 : ℚ) 0 (1 / 100000) 1 allocStart
      = some (stepAlloc 1 0 allocStart) := by
    have hcond : |allocStart.Error2 - (stepAlloc (1 : ℚ) 0 allocStart).Error2|
        < 1 / 100000 := by
      simp [stepAlloc, alloc, allocStart, npMean, constM, Matrix.mul_apply,
        Matrix.sub_apply, Matrix.smul_apply, Matrix.add_apply,
        Matrix.transpose_apply, Fin.sum_univ_one]
    simp only [sgdAllocGo]
    rw [if_pos hcond]
  exact ⟨stepAlloc 1 0 allocStart, hr,
    no_mutation_and_fresh_outputs 1 0 (1 / 100000) allocStart
      (by norm_num [allocStart]) 1 _ hr⟩

end SMAI
